import Mathlib

/-!
Verification of the fuck-u-code analysis pipeline.

This file gives a shallow embedding, in Lean 4, of the language classifier,
parser dispatch, structural parsers, metric engine and score aggregator of the
repository, and proves (or refutes) the specification claims about them.
Floating-point values are modelled exactly by rationals; Go `int` values by
`Int`; Go maps keyed by strings by association lists with replace-on-assign
semantics.  External collaborators (the Go standard library parser, the
embedded JavaScript engine) are modelled as explicit parameters holding their
outcome, so that the repository's own control flow around them is embedded
verbatim.
-/

namespace FUC

/-! ## Language classifier (`pkg/common/language.go`) -/

/-- The closed set of language tags (`common.LanguageType`). -/
inductive LanguageType where
  | go
  | javascript
  | typescript
  | python
  | java
  | cpp
  | c
  | csharp
  | unsupported
deriving DecidableEq, Repr

/-- Auxiliary scan for `filepath.Ext`: walk the path backwards, accumulating
characters, until the final dot of the final path element (stop at a path
separator). -/
def extRevAux : List Char → List Char → Option (List Char)
  | [], _ => none
  | ch :: rest, acc =>
      if ch = '/' then none
      else if ch = '.' then some (ch :: acc)
      else extRevAux rest (ch :: acc)

/-- Go's `filepath.Ext`: the suffix beginning at the final dot in the final
path element, or the empty string when there is none. -/
def filepathExt (path : String) : String :=
  match extRevAux path.data.reverse [] with
  | none => ""
  | some l => String.mk l

/-- Source `DefaultDetector.DetectLanguage`: lower-case the extension and match it
against the supported extension table. -/
def detectLanguage (filePath : String) : LanguageType :=
  let ext := String.mk ((filepathExt filePath).data.map Char.toLower)
  if ext = ".go" then .go
  else if ext = ".js" then .javascript
  else if ext = ".ts" ∨ ext = ".tsx" then .typescript
  else if ext = ".py" then .python
  else if ext = ".java" then .java
  else if ext = ".cpp" ∨ ext = ".cc" ∨ ext = ".cxx" ∨ ext = ".hpp" then .cpp
  else if ext = ".c" ∨ ext = ".h" then .c
  else if ext = ".cs" ∨ ext = ".razor" then .csharp
  else .unsupported

/-! ## Parser dispatch (`pkg/parser`, `CreateParser`) -/

/-- The parser implementations the dispatch function can select. -/
inductive ParserKind where
  | goParser
  | javascriptParser
  | typescriptParser
  | pythonParser
  | javaParser
  | cParser
  | genericParser
deriving DecidableEq, Repr

/-- A tag for the C#/Razor parser, which exists in the source tree
(`csharp_parser.go`) but is absent from `ParserKind` intentionally: it mirrors
the fact that `CreateParser` has no `common.CSharp` case and can therefore
never select it.  We keep it in a separate type to state that fact. -/
inductive ExtraParser where
  | csharpParser
deriving DecidableEq, Repr

/-- Source `parser.CreateParser`: dispatch from language tag to parser.  Note there is
no case for `csharp`; it falls to the generic default. -/
def createParser : LanguageType → ParserKind
  | .go => .goParser
  | .javascript => .javascriptParser
  | .typescript => .typescriptParser
  | .python => .pythonParser
  | .java => .javaParser
  | .cpp => .cParser
  | .c => .cParser
  | _ => .genericParser

/-- Source `parser.CreateParserForFile`: detect the language from the path, then
dispatch. -/
def createParserForFile (filePath : String) : ParserKind :=
  createParser (detectLanguage filePath)

/-! ## Data model (`pkg/parser` interfaces) -/

/-- Source `parser.Function`: one analyzable unit recovered by a parser. -/
structure FunctionInfo where
  name : String
  startLine : Int
  endLine : Int
  complexity : Int
  parameters : Int
deriving DecidableEq, Repr

/-- Pre-order traversal node kinds of a Go AST, as far as the metrics inspect
them (`ast.Inspect` callbacks only distinguish these cases). -/
inductive GoNodeKind where
  | ifStmt
  | forStmt
  | rangeStmt
  | switchStmt
  | caseClause
  | assignStmt
  | returnStmt
  | binaryLAnd
  | binaryLOr
  | binaryOther
  | otherNode
deriving DecidableEq, Repr

/-- A Go `*ast.FuncDecl` as produced by the (external) standard-library parser:
the fields the repository reads from it.  `nodes` is the pre-order traversal of
the whole declaration, `body` the traversal of `Body` when it is non-nil,
`paramGroups` the lengths of `field.Names` for each parameter field, `doc`
whether a doc comment is attached. -/
structure GoFuncDecl where
  name : String
  startLine : Int
  endLine : Int
  nodes : List GoNodeKind
  body : Option (List GoNodeKind)
  paramGroups : List Nat
  doc : Bool
deriving DecidableEq, Repr

/-- A top-level Go declaration as the metrics case over it. -/
inductive GoDecl where
  | funcDecl (fd : GoFuncDecl)
  | genDeclType (doc : Bool) (typeNames : List String)
  | otherDecl
deriving DecidableEq, Repr

/-- A Go `*ast.File` as produced by the standard-library parser: comment groups
(each a list of comment texts) and top-level declarations. -/
structure GoFile where
  commentGroups : List (List String)
  decls : List GoDecl
deriving DecidableEq, Repr

/-- Source `parser.BaseParseResult` (the one concrete `ParseResult`).  The opaque
`ASTRoot interface{}` only ever holds a Go `*ast.File` in the embedded
fragment, so it is modelled as `Option GoFile`. -/
structure ParseResult where
  functions : List FunctionInfo
  commentLines : Int
  totalLines : Int
  language : LanguageType
  astRoot : Option GoFile
deriving DecidableEq, Repr

/-! ## Metric engine interface (`pkg/metrics/metric.go`) -/

/-- Source `metrics.MetricResult`. -/
structure MetricResult where
  score : ℚ
  issues : List String
  description : String
  weight : ℚ
deriving DecidableEq, Repr

/-- A metric, with the fields and behaviour the analyzer reads through the
`metrics.Metric` interface. -/
structure Metric where
  name : String
  description : String
  weight : ℚ
  supportedLanguages : List LanguageType
  analyze : ParseResult → MetricResult

/-- Source `CodeAnalyzer.isLanguageSupported`: an empty declared language set means
the metric applies to every language. -/
def isLanguageSupported (m : Metric) (language : LanguageType) : Bool :=
  m.supportedLanguages.isEmpty || m.supportedLanguages.contains language

/-- Go map assignment `m[k] = v` on an association list: replace the binding
when the key is present, append otherwise. -/
def mapAssign (entries : List (String × MetricResult)) (k : String) (v : MetricResult) :
    List (String × MetricResult) :=
  if entries.any (fun e => e.1 = k) then
    entries.map (fun e => if e.1 = k then (k, v) else e)
  else
    entries ++ [(k, v)]

/-- Source `AnalysisResult.GetOverallScore`: weighted average of the stored metric
results, clamped to [0,1]; 0 when the map is empty or the weights sum to 0. -/
def getOverallScore (entries : List (String × MetricResult)) : ℚ :=
  if entries.isEmpty then 0
  else
    let totalScore := (entries.map (fun e => e.2.score * e.2.weight)).sum
    let totalWeight := (entries.map (fun e => e.2.weight)).sum
    if totalWeight = 0 then 0
    else
      let finalScore := totalScore / totalWeight
      if finalScore > 1 then 1
      else if finalScore < 0 then 0
      else finalScore

/-- The metric loop of `CodeAnalyzer.AnalyzeFile`: run every metric whose
language set admits the file's language, storing each result in the map under
the metric's name. -/
def analyzeFileMetrics (ms : List Metric) (pr : ParseResult) :
    List (String × MetricResult) :=
  ms.foldl
    (fun acc m =>
      if isLanguageSupported m pr.language then mapAssign acc m.name (m.analyze pr)
      else acc)
    []

/-- Source `metrics.AnalysisResult` for one file, as built by
`CodeAnalyzer.AnalyzeFile` from a parse result. -/
structure AnalysisResult where
  filePath : String
  totalLines : Int
  commentLines : Int
  metricResults : List (String × MetricResult)
  functions : List FunctionInfo
  language : LanguageType
deriving DecidableEq, Repr

/-- Source `CodeAnalyzer.AnalyzeFile` after a successful parse. -/
def codeAnalyzerAnalyzeFile (ms : List Metric) (filePath : String) (pr : ParseResult) :
    AnalysisResult :=
  { filePath := filePath
    totalLines := pr.totalLines
    commentLines := pr.commentLines
    metricResults := analyzeFileMetrics ms pr
    functions := pr.functions
    language := pr.language }

/-- Source `AnalysisResult.GetIssues`: concatenate all metric issues. -/
def getIssues (r : AnalysisResult) : List String :=
  (r.metricResults.map (fun e => e.2.issues)).flatten

/-- Source `CodeAnalyzer.CalculateOverallScore`: arithmetic mean of the per-file
overall scores; 0 for an empty result list. -/
def calculateOverallScore (results : List AnalysisResult) : ℚ :=
  if results.isEmpty then 0
  else (results.map (fun r => getOverallScore r.metricResults)).sum / results.length

/-- Clamp a rational to [0,1], written the way `GetOverallScore` writes it. -/
def clamp01 (x : ℚ) : ℚ :=
  if x > 1 then 1 else if x < 0 then 0 else x

/-- The metrics (in factory order) whose declared language set admits the
file's language — the ones `CodeAnalyzer.AnalyzeFile` actually runs. -/
def applicableMetrics (ms : List Metric) (language : LanguageType) : List Metric :=
  ms.filter (fun m => isLanguageSupported m language)

/-! ### Demonstration inputs used by witness theorems -/

/-- A metric with an empty language set (applies everywhere). -/
def demoMetricA : Metric :=
  { name := "A", description := "a", weight := 1/4, supportedLanguages := []
    analyze := fun _ => ⟨1/2, [], "a", 1/4⟩ }

/-- A metric declared only for Go. -/
def demoMetricB : Metric :=
  { name := "B", description := "b", weight := 3/4, supportedLanguages := [.go]
    analyze := fun _ => ⟨1, [], "b", 3/4⟩ }

/-- A metric declared only for Java (inapplicable to a Go file). -/
def demoMetricC : Metric :=
  { name := "C", description := "c", weight := 2, supportedLanguages := [.java]
    analyze := fun _ => ⟨1, [], "c", 2⟩ }

/-- A minimal Go-language parse result. -/
def demoParseResult : ParseResult :=
  { functions := [], commentLines := 0, totalLines := 1, language := .go, astRoot := none }

/-! ## The metric factory's simple metrics (`pkg/metrics`, factory) -/

/-- Source `i18n.FormatKey`: join the parts with dots. -/
def formatKey (parts : List String) : String :=
  String.intercalate "." parts

/-- Source `MetricFactory.createSimpleMetric`: a `SimpleMetric` whose `Analyze`
returns the constant result `{Score: 0.5, Issues: [], Description, Weight}`.
Its base metric is built with a `nil` language list (applies everywhere).
The translator is an external collaborator, passed in as a function. -/
def createSimpleMetric (name description : String) (weight : ℚ) : Metric :=
  { name := name
    description := description
    weight := weight
    supportedLanguages := []
    analyze := fun _ => ⟨1/2, [], description, weight⟩ }

/-- Source `MetricFactory.CreateErrorHandling`. -/
def createErrorHandling (tr : String → String) : Metric :=
  createSimpleMetric (tr (formatKey ["metric", "error_handling"]))
    (tr ("metric." ++ "error_handling" ++ ".description")) (15/100)

/-- Source `MetricFactory.CreateNamingConvention`. -/
def createNamingConvention (tr : String → String) : Metric :=
  createSimpleMetric (tr (formatKey ["metric", "naming_convention"]))
    (tr ("metric." ++ "naming_convention" ++ ".description")) (1/10)

/-- Source `MetricFactory.CreateCodeDuplication`. -/
def createCodeDuplication (tr : String → String) : Metric :=
  createSimpleMetric (tr (formatKey ["metric", "code_duplication"]))
    (tr ("metric." ++ "code_duplication" ++ ".description")) (15/100)

/-- Source `MetricFactory.CreateStructureAnalysis`. -/
def createStructureAnalysis (tr : String → String) : Metric :=
  createSimpleMetric (tr (formatKey ["metric", "structure_analysis"]))
    (tr ("metric." ++ "structure_analysis" ++ ".description")) (2/10)

/-! ## Directory analysis and completion order
(`CodeAnalyzer.AnalyzeDirectory`, `DefaultAnalyzer.AnalyzeWithExcludes`) -/

/-- Source `analyzer.FileAnalysisResult`: the per-file row of the project output. -/
structure FileAnalysisResult where
  filePath : String
  fileScore : ℚ
  issues : List String
deriving DecidableEq, Repr

/-- The `FilesAnalyzed` list built by `AnalyzeWithExcludes` from the per-file
results in the order `AnalyzeDirectory` drained them from its results channel.
No sort is applied anywhere, so that order is the goroutine completion
order. -/
def filesAnalyzedOf (results : List AnalysisResult) : List FileAnalysisResult :=
  results.map (fun r => ⟨r.filePath, getOverallScore r.metricResults, getIssues r⟩)

/-- Per-file result for a first demo file. -/
def demoResultA : AnalysisResult :=
  codeAnalyzerAnalyzeFile [demoMetricA] "a.go" demoParseResult

/-- Per-file result for a second demo file, distinct in path only. -/
def demoResultB : AnalysisResult :=
  codeAnalyzerAnalyzeFile [demoMetricA] "b.go" demoParseResult

/-! ## String scanning utilities shared by the heuristic parsers

The Go sources work on `string`/`[]string`; we work on `List Char` /
`List (List Char)`. -/

/-- Source `strings.Split(content, "\n")`. -/
def splitLines : List Char → List (List Char)
  | [] => [[]]
  | ch :: rest =>
      if ch = '\n' then [] :: splitLines rest
      else
        match splitLines rest with
        | [] => [[ch]]
        | l :: ls => (ch :: l) :: ls

/-- The white-space set of `strings.TrimSpace` (ASCII fragment). -/
def isGoSpace (ch : Char) : Bool :=
  ch = ' ' ∨ ch = '\t' ∨ ch = '\n' ∨ ch = '\r' ∨ ch = Char.ofNat 11 ∨ ch = Char.ofNat 12

/-- Source `strings.TrimSpace`. -/
def trimSpace (cs : List Char) : List Char :=
  ((cs.dropWhile isGoSpace).reverse.dropWhile isGoSpace).reverse

/-- Source `strings.Contains(hay, needle)`. -/
def containsSeq (needle : List Char) : List Char → Bool
  | [] => needle.isEmpty
  | c :: rest => needle.isPrefixOf (c :: rest) || containsSeq needle rest

/-- Source `strings.LastIndex(hay, c)` for a single character, as an option. -/
def lastIdx (ch : Char) (cs : List Char) : Option Nat :=
  ((cs.enum.filter (fun e => e.2 = ch)).map (fun e => e.1)).getLast?

/-- Source `strings.TrimSuffix`. -/
def trimSuffixL (suffix cs : List Char) : List Char :=
  if suffix.isSuffixOf cs then cs.take (cs.length - suffix.length) else cs

/-- Source `strings.Fields`: split on white space, dropping empty fields. -/
def fieldsOf (cs : List Char) : List (List Char) :=
  (cs.splitOnP isGoSpace).filter (fun f => ¬f.isEmpty)

/-- Character loop for `strings.Count`: `skip` characters of a previous match
remain to be consumed before searching again (non-overlapping matches). -/
def countOccurGo (needle : List Char) : List Char → Nat → Nat
  | [], _ => 0
  | c :: rest, skip =>
      if 0 < skip then countOccurGo needle rest (skip - 1)
      else if needle.isPrefixOf (c :: rest) then
        1 + countOccurGo needle rest (needle.length - 1)
      else countOccurGo needle rest 0

/-- Source `strings.Count(hay, needle)` (non-overlapping; `length+1` for an empty
needle, as in Go). -/
def countOccur (needle : List Char) (hay : List Char) : Nat :=
  if needle.isEmpty then hay.length + 1
  else countOccurGo needle hay 0

/-- Source `strings.Index(hay, needle)` as an option. -/
def idxOfSeq (needle : List Char) : List Char → Option Nat
  | [] => if needle.isEmpty then some 0 else none
  | c :: rest =>
      if needle.isPrefixOf (c :: rest) then some 0
      else (idxOfSeq needle rest).map (· + 1)

/-- Source `isAlphaNum` from `c_parser.go`: letter, digit or underscore. -/
def isAlphaNumCh (ch : Char) : Bool :=
  ('a' ≤ ch ∧ ch ≤ 'z') ∨ ('A' ≤ ch ∧ ch ≤ 'Z') ∨ ('0' ≤ ch ∧ ch ≤ '9') ∨ ch = '_'

/-! ## The C/C++ heuristic parser (`pkg/parser/c_parser.go`) -/

/-- The line scan of `CParser.countCommentLines` (also, verbatim, of
`GenericParser.countCStyleComments`): one pass over the lines with an
in-block-comment flag, counting at most one comment line per input line. -/
def cStyleCommentScan : List (List Char) → Bool → Nat
  | [], _ => 0
  | line :: rest, inBlock =>
      let t := trimSpace line
      if inBlock then
        1 + cStyleCommentScan rest (!containsSeq "*/".data t)
      else if "//".data.isPrefixOf t then
        1 + cStyleCommentScan rest false
      else if "/*".data.isPrefixOf t then
        1 + cStyleCommentScan rest (!containsSeq "*/".data t)
      else
        cStyleCommentScan rest false

/-- Source `CParser.countCommentLines`. -/
def cCountCommentLines (content : List Char) : Nat :=
  cStyleCommentScan (splitLines content) false

/-- Source `CParser.extractFunctionName`: strip the trailing `{`, cut at the last
`(`, and take the last white-space-separated word. -/
def cExtractFunctionName (line : List Char) : List Char :=
  let l1 := trimSpace (trimSuffixL "\x7b".data line)
  match lastIdx '(' l1 with
  | some idx =>
      let l2 := trimSpace (l1.take idx)
      match (fieldsOf l2).getLast? with
      | some w => w
      | none => []
  | none => []

/-- Source `CParser.countParameters`: characters between the last `(` and the last
`)`; 0 for empty or `void`, else one plus the comma count. -/
def cCountParameters (line : List Char) : Nat :=
  match lastIdx '(' line, lastIdx ')' line with
  | some s, some e =>
      if s < e then
        let params := trimSpace ((line.drop (s + 1)).take (e - (s + 1)))
        if params.isEmpty ∨ params = "void".data then 0
        else countOccur ",".data params + 1
      else 0
  | _, _ => 0

/-- One line of `CParser.findFunctionEnd`: track brace depth; `none` signals
that the depth reached zero on this line. -/
def scanBrackets : List Char → Int → Option Int
  | [], cnt => some cnt
  | c :: rest, cnt =>
      if c = '{' then scanBrackets rest (cnt + 1)
      else if c = '}' then
        if cnt - 1 = 0 then none else scanBrackets rest (cnt - 1)
      else scanBrackets rest cnt

/-- The line loop of `CParser.findFunctionEnd`, starting after the header
line; falls back to the total line count. -/
def cFindEndAux (total : Nat) : List (List Char) → Nat → Int → Nat
  | [], _, _ => total
  | line :: rest, i, cnt =>
      match scanBrackets line cnt with
      | none => i + 1
      | some cnt' => cFindEndAux total rest (i + 1) cnt'

/-- Source `CParser.findFunctionEnd`: scan forward from the line after the header
with initial depth 1. -/
def cFindFunctionEnd (lines : List (List Char)) (startIdx : Nat) : Nat :=
  cFindEndAux lines.length (lines.drop (startIdx + 1)) (startIdx + 1) 1

/-- The keyword loop body of `CParser.estimateComplexity` for one keyword: at
most `count` rounds, each locating the keyword, testing that the match is
bounded by non-identifier characters, and dropping the scanned part of the
line.  (A round in which the keyword is no longer found leaves the state
unchanged, exactly as the remaining Go iterations would.) -/
def cKeywordRounds (kw : List Char) : Nat → List Char → Nat → List Char × Nat
  | 0, line, cx => (line, cx)
  | j + 1, line, cx =>
      match idxOfSeq kw line with
      | none => (line, cx)
      | some pos =>
          let okLeft : Bool := pos = 0 ∨ ¬isAlphaNumCh (line.getD (pos - 1) ' ')
          let okRight : Bool :=
            line.length ≤ pos + kw.length ∨ ¬isAlphaNumCh (line.getD (pos + kw.length) ' ')
          let cx' := if okLeft ∧ okRight then cx + 1 else cx
          cKeywordRounds kw j (line.drop (pos + kw.length)) cx'

/-- The decision keywords of `CParser.estimateComplexity`. -/
def cKeywords : List (List Char) :=
  ["if", "else", "for", "while", "do", "switch", "case", "catch", "?", "&&", "||"].map
    String.data

/-- Source `CParser.estimateComplexity`: base 1, plus boundary-checked keyword
occurrences over the function's line range. -/
def cEstimateComplexity (lines : List (List Char)) (startLine lineCount : Nat) : Nat :=
  ((List.range' startLine lineCount).filter (fun i => i < lines.length)).foldl
    (fun cx i =>
      (cKeywords.foldl
        (fun st kw =>
          let count := countOccur kw st.1
          cKeywordRounds kw count st.1 st.2)
        (lines.getD i [], cx)).2)
    1

/-- Source `CParser.detectFunctions`: a line ending in `{` (but not starting with it)
whose header yields a function name becomes a `Function` spanning to the
matching closing brace. -/
def cDetectFunctions (lines : List (List Char)) : List FunctionInfo :=
  (List.range lines.length).filterMap (fun i =>
    let t := trimSpace (lines.getD i [])
    if "\x7b".data.isSuffixOf t ∧ ¬"\x7b".data.isPrefixOf t then
      let nm := cExtractFunctionName t
      if nm.isEmpty then none
      else
        let endLine := cFindFunctionEnd lines i
        some
          { name := String.mk nm
            startLine := (i + 1 : Int)
            endLine := (endLine : Int)
            complexity := (cEstimateComplexity lines i (endLine - i) : Int)
            parameters := (cCountParameters t : Int) }
    else none)

/-- Source `CParser.Parse` builds this parse result; the parser itself then returns
it with a nil error, unconditionally. -/
def cParseResultOf (filePath : String) (content : List Char) : ParseResult :=
  let lines := splitLines content
  { functions := cDetectFunctions lines
    commentLines := (cCountCommentLines content : Int)
    totalLines := (lines.length : Int)
    language := detectLanguage filePath
    astRoot := none }

/-- Source `CParser.Parse`: always `(result, nil)`. -/
def cParserParse (filePath : String) (content : List Char) : Except String ParseResult :=
  .ok (cParseResultOf filePath content)

/-! ## The generic fallback parser (`pkg/parser/generic_parser.go`)

Function detection goes through the external `regexp` package; the line
bookkeeping around each match (`getLineNumber`, `findBlockEnd`) is embedded in
full, quantified over the match position the regex engine reports. -/

/-- Triple double quote as characters. -/
def dq3 : List Char := ['"', '"', '"']

/-- Triple single quote as characters. -/
def sq3 : List Char := ['\'', '\'', '\'']

/-- Source `GenericParser.countPythonComments`: `#` lines and docstring spans. -/
def pyCommentScan : List (List Char) → Bool → Nat
  | [], _ => 0
  | line :: rest, inDoc =>
      let t := trimSpace line
      if inDoc then
        1 + pyCommentScan rest (!(containsSeq dq3 t || containsSeq sq3 t))
      else if "#".data.isPrefixOf t then
        1 + pyCommentScan rest false
      else if dq3.isPrefixOf t || sq3.isPrefixOf t then
        1 + pyCommentScan rest
          (!(decide (1 < countOccur dq3 t) || decide (1 < countOccur sq3 t)))
      else
        pyCommentScan rest false

/-- Source `GenericParser.countGenericComments`: per-line comment-marker test. -/
def genericCommentLineCount (lines : List (List Char)) : Nat :=
  lines.countP (fun line =>
    let t := trimSpace line
    "//".data.isPrefixOf t || "#".data.isPrefixOf t
      || "/*".data.isPrefixOf t || "*".data.isPrefixOf t)

/-- Source `GenericParser.countCommentLines`: dispatch on the detected language.
(The C-style branch is the same line scan as `CParser.countCommentLines`.) -/
def gCountCommentLines (content : List Char) (language : LanguageType) : Nat :=
  let lines := splitLines content
  match language with
  | .javascript | .typescript | .java | .cpp | .c => cStyleCommentScan lines false
  | .python => pyCommentScan lines false
  | _ => genericCommentLineCount lines

/-- Source `GenericParser.getLineNumber`: 1 plus the newlines before the position. -/
def getLineNumber (content : List Char) (pos : Nat) : Nat :=
  1 + (content.take pos).count '\n'

/-- The lexical state of `GenericParser.findBlockEnd`. -/
structure ScanState where
  inString : Bool
  inChar : Bool
  inLineComment : Bool
  inBlockComment : Bool
deriving DecidableEq, Repr

/-- The character loop of `GenericParser.findBlockEnd`.  `prev` is the
previously consumed character (for escape lookback), `nl` the newlines
consumed so far; `some` returns the computed end line when the brace depth
reaches zero, `none` means the scan fell off the end of the content. -/
def findBlockEndAux (startLine : Nat) :
    List Char → Option Char → ScanState → Int → Nat → Option Nat
  | [], _, _, _, _ => none
  | c :: rest, prev, st, cnt, nl =>
      let nl' := if c = '\n' then nl + 1 else nl
      if st.inLineComment = false ∧ st.inBlockComment = false ∧ c = '"'
          ∧ prev ≠ some '\\' then
        findBlockEndAux startLine rest (some c) { st with inString := !st.inString } cnt nl'
      else if st.inLineComment = false ∧ st.inBlockComment = false ∧ c = '\''
          ∧ prev ≠ some '\\' then
        findBlockEndAux startLine rest (some c) { st with inChar := !st.inChar } cnt nl'
      else if st.inString = false ∧ st.inChar = false ∧ st.inLineComment = false
          ∧ st.inBlockComment = false ∧ c = '/' ∧ rest.head? = some '/' then
        findBlockEndAux startLine rest (some c) { st with inLineComment := true } cnt nl'
      else if st.inString = false ∧ st.inChar = false ∧ st.inLineComment = false
          ∧ st.inBlockComment = false ∧ c = '/' ∧ rest.head? = some '*' then
        match rest with
        | d :: rest2 =>
            findBlockEndAux startLine rest2 (some d) { st with inBlockComment := true } cnt nl'
        | [] => none
      else if st.inString = false ∧ st.inChar = false ∧ st.inLineComment = true
          ∧ c = '\n' then
        findBlockEndAux startLine rest (some c) { st with inLineComment := false } cnt nl'
      else if st.inString = false ∧ st.inChar = false ∧ st.inBlockComment = true
          ∧ c = '*' ∧ rest.head? = some '/' then
        match rest with
        | d :: rest2 =>
            findBlockEndAux startLine rest2 (some d) { st with inBlockComment := false } cnt nl'
        | [] => none
      else if st.inString = false ∧ st.inChar = false ∧ st.inLineComment = false
          ∧ st.inBlockComment = false ∧ c = '{' then
        findBlockEndAux startLine rest (some c) st (cnt + 1) nl'
      else if st.inString = false ∧ st.inChar = false ∧ st.inLineComment = false
          ∧ st.inBlockComment = false ∧ c = '}' then
        if cnt - 1 = 0 then some (startLine + nl')
        else findBlockEndAux startLine rest (some c) st (cnt - 1) nl'
      else
        findBlockEndAux startLine rest (some c)
          (if c = '\n' then { st with inLineComment := false } else st) cnt nl'

/-- Source `GenericParser.findBlockEnd`: scan from the match position with brace
depth 0; fall back to the file's last line when no balanced `}` is found. -/
def genericFindBlockEnd (content : List Char) (startPos : Nat)
    (lines : List (List Char)) (startLine : Nat) : Nat :=
  let prev : Option Char :=
    if startPos = 0 then none else some (content.getD (startPos - 1) ' ')
  match findBlockEndAux startLine (content.drop startPos) prev
      ⟨false, false, false, false⟩ 0 0 with
  | some e => e
  | none => lines.length

/-- The start/end line pair `detectFunctionsWithPattern` computes for one
regex match at byte position `startPos`. -/
def gFunctionLines (content : List Char) (startPos : Nat) : Nat × Nat :=
  let lines := splitLines content
  let startLine := getLineNumber content startPos
  (startLine, genericFindBlockEnd content startPos lines startLine)

/-! ## The Go parser (`GoParser.Parse`)

The standard-library parse (`go/parser.ParseFile`) is external; its outcome —
either an error or an `*ast.File` — is a parameter.  Everything the repository
does with that outcome is embedded verbatim. -/

/-- The node kinds that increment cyclomatic complexity in
`calculateComplexity` (if / for / range / case clause / `&&` / `∥`). -/
def isGoDecisionNode : GoNodeKind → Bool
  | .ifStmt => true
  | .forStmt => true
  | .rangeStmt => true
  | .caseClause => true
  | .binaryLAnd => true
  | .binaryLOr => true
  | _ => false

/-- Source `parser.calculateComplexity`: 1 plus the decision nodes in the whole
declaration's traversal. -/
def goCalculateComplexity (fd : GoFuncDecl) : Nat :=
  1 + fd.nodes.countP isGoDecisionNode

/-- Source `parser.calculateParameters`: total of the name counts of the parameter
fields (`Params == nil` is the empty list). -/
def goCalculateParameters (fd : GoFuncDecl) : Nat :=
  fd.paramGroups.sum

/-- The `*ast.FuncDecl` nodes `ast.Inspect` finds in the file. -/
def goFuncDecls (file : GoFile) : List GoFuncDecl :=
  file.decls.filterMap (fun d =>
    match d with
    | .funcDecl fd => some fd
    | _ => none)

/-- The successful branch of `GoParser.Parse`: comment lines are summed per
comment as (newlines in its text) + 1, total lines are the content's newline
count + 1, and one `Function` is built per `FuncDecl`. -/
def goParseOk (file : GoFile) (content : List Char) : ParseResult :=
  { functions :=
      (goFuncDecls file).map (fun fd =>
        { name := fd.name
          startLine := fd.startLine
          endLine := fd.endLine
          complexity := (goCalculateComplexity fd : Int)
          parameters := (goCalculateParameters fd : Int) })
    commentLines :=
      Int.ofNat
        ((file.commentGroups.map
          (fun g => (g.map (fun t => t.data.count '\n' + 1)).sum)).sum)
    totalLines := Int.ofNat (content.count '\n' + 1)
    language := .go
    astRoot := some file }

/-- Source `GoParser.Parse` as a whole: error propagation around `goParseOk`. -/
def goParserParse (parsed : Except String GoFile) (content : List Char) :
    Except String ParseResult :=
  match parsed with
  | .error e => .error ("解析Go文件失败: " ++ e)
  | .ok file => .ok (goParseOk file content)

/-- The parse step of `CodeAnalyzer.AnalyzeFile`: a parser error is wrapped in
a translated message and returned to the caller (the wrapper text is
presentation; the propagation is what matters here). -/
def codeAnalyzerAnalyzeFileE (ms : List Metric) (filePath : String)
    (parsed : Except String ParseResult) : Except String AnalysisResult :=
  match parsed with
  | .error e => .error e
  | .ok pr => .ok (codeAnalyzerAnalyzeFile ms filePath pr)

/-- The per-file loop of `CodeAnalyzer.AnalyzeDirectory`, seen per file: a
failed file's error goes to the error channel (it is logged as a warning) and
the file is dropped from the collected results; successful siblings are kept.
`files` pairs each path with its parse outcome. -/
def analyzeDirectoryResults (ms : List Metric)
    (files : List (String × Except String ParseResult)) : List AnalysisResult :=
  files.filterMap (fun f =>
    match codeAnalyzerAnalyzeFileE ms f.1 f.2 with
    | .ok r => some r
    | .error _ => none)

/-- A one-line Go file carrying two comments (`package p /* a */ // b`), as
the standard-library parser reports it: one comment group with two
single-line comments. -/
def demoGoOneLineFile : GoFile :=
  { commentGroups := [["/* a */", "// b"]], decls := [] }

/-- A two-line C file with one function. -/
def demoCContent : List Char := "int main() \x7b\n\x7d".data

/-- The function the C parser recovers from `demoCContent`. -/
def demoCFunction : FunctionInfo :=
  { name := "main", startLine := 1, endLine := 2, complexity := 1, parameters := 0 }

/-! ## The cyclomatic complexity metric (`pkg/metrics/cyclomatic_complexity.go`) -/

/-- Source `metrics.ExtractGoAST`: the AST root is usable only for Go parse results;
`BaseParseResult` has no `GetContent`, so the content `ExtractGoAST` returns
is always nil in the embedded pipeline. -/
def extractGoAST (pr : ParseResult) : Option GoFile :=
  if pr.language = .go then pr.astRoot else none

/-- Opaque model of `fmt.Sprintf(template, name, value)` for issue strings. -/
def sprintIssue (template name : String) (value : Int) : String :=
  template ++ "[" ++ name ++ "," ++ toString value ++ "]"

/-- Opaque model of `fmt.Sprintf(template, value)` for file-level issues. -/
def sprintIssueN (template : String) (value : Int) : String :=
  template ++ "[" ++ toString value ++ "]"

/-- The keywords of `calculateTextBasedComplexity` (counted as raw substrings,
no word-boundary check). -/
def cycloTextKeywords : List String :=
  ["if", "for", "while", "switch", "case",
   "catch", "&&", "||", "?", "foreach",
   "elif", "except", "try", "else if"]

/-- Source `calculateTextBasedComplexity`: 1 plus the raw occurrence counts. -/
def calculateTextBasedComplexity (content : List Char) : Nat :=
  1 + (cycloTextKeywords.map (fun kw => countOccur kw.data content)).sum

/-- Source `CyclomaticComplexityMetric.calculateScore`: the piecewise score curve
over the average complexity. -/
def cycloCalculateScore (avg : ℚ) : ℚ :=
  if avg ≤ 5 then 0
  else if avg ≤ 10 then (avg - 5) / 5 * (1/2)
  else if avg ≤ 20 then 1/2 + (avg - 10) / 10 * (3/10)
  else
    let s := 4/5 + (avg - 20) / 10 * (1/5)
    if s > 1 then 1 else s

/-- Per-function complexity issues on the Go AST path (the metric's
`calculateComplexity` is character-for-character the parser's, so it is shared
as `goCalculateComplexity`). -/
def cycloIssuesGo (tr : String → String) (fds : List GoFuncDecl) : List String :=
  fds.filterMap (fun fd =>
    let cx := goCalculateComplexity fd
    if 15 < cx then some (sprintIssue (tr "issue.high_complexity") fd.name (cx : Int))
    else if 10 < cx then some (sprintIssue (tr "issue.medium_complexity") fd.name (cx : Int))
    else none)

/-- Per-function complexity issues from parse-result function records. -/
def cycloIssuesRecords (tr : String → String) (fns : List FunctionInfo) : List String :=
  fns.filterMap (fun fn =>
    if 15 < fn.complexity then
      some (sprintIssue (tr "issue.high_complexity") fn.name fn.complexity)
    else if 10 < fn.complexity then
      some (sprintIssue (tr "issue.medium_complexity") fn.name fn.complexity)
    else none)

/-- Source `CyclomaticComplexityMetric.analyzeComplexity`: AST walk for Go, function
records otherwise, text-based fallback when no functions are known; then the
piecewise score of the average complexity. -/
def cycloAnalyzeComplexity (tr : String → String) (file : Option GoFile)
    (content : List Char) (pr : ParseResult) : ℚ × List String :=
  match file with
  | some f =>
      let fds := goFuncDecls f
      let issues := cycloIssuesGo tr fds
      if fds.length = 0 then (0, issues)
      else
        (cycloCalculateScore
          (((fds.map goCalculateComplexity).sum : ℚ) / (fds.length : ℚ)), issues)
  | none =>
      let fns := pr.functions
      if fns.isEmpty then
        let cx := calculateTextBasedComplexity content
        let issues :=
          if 100 < cx then [sprintIssueN (tr "issue.file_high_complexity") (cx : Int)]
          else if 50 < cx then [sprintIssueN (tr "issue.file_medium_complexity") (cx : Int)]
          else []
        (cycloCalculateScore ((cx : ℚ) / (1 : ℚ)), issues)
      else
        (cycloCalculateScore
          (((fns.map FunctionInfo.complexity).sum : ℚ) / (fns.length : ℚ)),
          cycloIssuesRecords tr fns)

/-- Source `CyclomaticComplexityMetric.Analyze`: the content handed over is always
the newline padding of the total line count (no `GetContent` on
`BaseParseResult`); weight 0.25. -/
def cycloAnalyze (tr : String → String) (pr : ParseResult) : MetricResult :=
  let file := extractGoAST pr
  let content := List.replicate pr.totalLines.toNat '\n'
  let r := cycloAnalyzeComplexity tr file content pr
  { score := r.1
    issues := r.2
    description := tr "metric.cyclomatic_complexity.description"
    weight := 1/4 }

/-- A Go file with 5 functions of complexity 3 each (two decision nodes per
body). -/
def demoGoFile5 : GoFile :=
  { commentGroups := []
    decls :=
      [.funcDecl ⟨"f1", 1, 2, [.ifStmt, .ifStmt], some [.ifStmt, .ifStmt], [], false⟩,
       .funcDecl ⟨"f2", 3, 4, [.ifStmt, .forStmt], some [.ifStmt, .forStmt], [], false⟩,
       .funcDecl ⟨"f3", 5, 6, [.caseClause, .binaryLAnd], some [.caseClause, .binaryLAnd], [], false⟩,
       .funcDecl ⟨"f4", 7, 8, [.rangeStmt, .binaryLOr], some [.rangeStmt, .binaryLOr], [], false⟩,
       .funcDecl ⟨"f5", 9, 10, [.ifStmt, .rangeStmt], some [.ifStmt, .rangeStmt], [], false⟩] }

/-- The pipeline parse result of the 5-function demo Go file. -/
def demoGoPr5 : ParseResult :=
  goParseOk demoGoFile5 (List.replicate 9 '\n')

/-! ## The comment ratio metric (`pkg/metrics/comment_ratio.go`) -/

/-- Source `CommentRatioMetric.calculateScore`: the 8-band step curve over the
comment ratio. -/
def commentCalculateScore (ratio : ℚ) : ℚ :=
  if ratio ≥ 1/4 then 0
  else if ratio ≥ 1/5 then 1/10
  else if ratio ≥ 3/20 then 1/4
  else if ratio ≥ 1/10 then 9/20
  else if ratio ≥ 7/100 then 13/20
  else if ratio ≥ 1/20 then 4/5
  else if ratio ≥ 1/50 then 9/10
  else 1

/-- Source `ast.IsExported` on a name: first character upper case. -/
def isExportedName (s : String) : Bool :=
  match s.data with
  | [] => false
  | c :: _ => c.isUpper

/-- Source `checkGoExportedComments`: exported functions and type specs lacking a
doc comment each yield an issue. -/
def goExportedCommentIssues (tr : String → String) (f : GoFile) : List String :=
  f.decls.flatMap (fun d =>
    match d with
    | .funcDecl fd =>
        if isExportedName fd.name ∧ ¬fd.doc then
          [sprintIssue (tr "issue.exported_func_no_comment") fd.name 0]
        else []
    | .genDeclType doc typeNames =>
        typeNames.filterMap (fun n =>
          if isExportedName n ∧ ¬doc then
            some (sprintIssue (tr "issue.exported_type_no_comment") n 0)
          else none)
    | .otherDecl => [])

/-- Source `CommentRatioMetric.generateIssues`: ratio-band issues, plus the Go
exported-declaration check when an AST is available. -/
def commentGenerateIssues (tr : String → String) (pr : ParseResult) (ratio : ℚ) :
    List String :=
  let base :=
    if ratio < 1/20 then [sprintIssueN (tr "issue.comment_very_low") (100 * ratio).num]
    else if ratio < 1/10 then [sprintIssueN (tr "issue.comment_low") (100 * ratio).num]
    else []
  base ++
    (if pr.language = .go then
      match extractGoAST pr with
      | some f => goExportedCommentIssues tr f
      | none => []
    else [])

/-- Source `CommentRatioMetric.Analyze`: ratio = comment lines / total lines (0 when
the file has no lines); weight 0.15. -/
def commentRatioAnalyze (tr : String → String) (pr : ParseResult) : MetricResult :=
  let ratio : ℚ :=
    if 0 < pr.totalLines then (pr.commentLines : ℚ) / (pr.totalLines : ℚ) else 0
  { score := commentCalculateScore ratio
    issues := commentGenerateIssues tr pr ratio
    description := "检测代码的注释覆盖率，良好的注释能提高代码可读性和可维护性"
    weight := 15/100 }

/-! ## The standalone code duplication metric (`code_duplication.go`)

This metric exists in the sources but is never created by the factory (which
substitutes a `SimpleMetric` stub); it is embedded to compare its behaviour
with the stub's. -/

/-- The token `extractFunctionSignature` emits per traversal node. -/
def dupSigToken : GoNodeKind → String
  | .ifStmt => "if"
  | .forStmt => "for"
  | .rangeStmt => "range"
  | .switchStmt => "switch"
  | .caseClause => "case"
  | .assignStmt => "="
  | .returnStmt => "return"
  | _ => ""

/-- Source `extractFunctionSignature` over a function body traversal. -/
def extractFunctionSignature (body : List GoNodeKind) : String :=
  String.join (body.map dupSigToken)

/-- Go map append `m[sig] = append(m[sig], name)` on an association list. -/
def groupAdd (groups : List (String × List String)) (sig name : String) :
    List (String × List String) :=
  if groups.any (fun g => g.1 = sig) then
    groups.map (fun g => if g.1 = sig then (g.1, g.2 ++ [name]) else g)
  else groups ++ [(sig, [name])]

/-- Source `findDuplicatedFunctions`: groups with more than one function and a
fingerprint longer than 10 bytes contribute (size − 1) duplicates and one
issue.  (Go iterates its map in unspecified order; insertion order stands in
for it — the duplicate count itself is order-independent.) -/
def dupCountAndIssues (groups : List (String × List String)) : Nat × List String :=
  groups.foldl
    (fun acc g =>
      if 1 < g.2.length ∧ 10 < g.1.length then
        (acc.1 + (g.2.length - 1),
          acc.2 ++ ["可能存在重复实现: " ++ String.intercalate ", " g.2])
      else acc)
    (0, [])

/-- Source `CodeDuplicationMetric.calculateScore` (`code_duplication.go`, first
variant): base 0.4, plus 10 per unit of duplication rate, clamped at 1. -/
def dupCalculateScore (rate : ℚ) : ℚ :=
  let s := 2/5 + rate * 10
  if s > 1 then 1 else s

/-- Source `CodeDuplicationMetric.Analyze`: group bodied functions by structural
fingerprint; fewer than 3 functions score a fixed 0.1; otherwise the score of
(duplicates / functions). -/
def codeDuplicationAnalyze (f : GoFile) : ℚ × List String :=
  let fds := (goFuncDecls f).filter (fun fd => fd.body ≠ none)
  let groups :=
    fds.foldl
      (fun gs fd => groupAdd gs (extractFunctionSignature (fd.body.getD [])) fd.name)
      []
  let r := dupCountAndIssues groups
  if fds.length < 3 then (1/10, r.2)
  else (dupCalculateScore ((r.1 : ℚ) / (fds.length : ℚ)), r.2)

/-- A body skeleton whose fingerprint `ifreturnforreturn` is 17 bytes long. -/
def demoDupBody : List GoNodeKind :=
  [.ifStmt, .returnStmt, .forStmt, .returnStmt]

/-- A Go file with exactly three structurally identical functions (same
branch/loop/return skeleton, different identifiers) and nothing else. -/
def demoDupFile : GoFile :=
  { commentGroups := []
    decls :=
      [.funcDecl ⟨"alpha", 1, 3, demoDupBody, some demoDupBody, [], false⟩,
       .funcDecl ⟨"beta", 4, 6, demoDupBody, some demoDupBody, [], false⟩,
       .funcDecl ⟨"gamma", 7, 9, demoDupBody, some demoDupBody, [], false⟩] }

/-- The pipeline parse result of the three-duplicate demo file. -/
def demoDupParseResult : ParseResult :=
  goParseOk demoDupFile (List.replicate 8 '\n')

/-- The identity translator, for concrete instances. -/
def idTr : String → String := fun s => s

/-! ## Verified claims and supporting theorems -/

/-! ### Aggregation lemmas -/

/-- With a fresh key, Go map assignment is a plain append. -/
theorem mapAssign_fresh (entries : List (String × MetricResult)) (k : String)
    (v : MetricResult) (h : ∀ e ∈ entries, e.1 ≠ k) :
    mapAssign entries k v = entries ++ [(k, v)] := by
  unfold mapAssign
  rw [if_neg]
  simp only [List.any_eq_true, decide_eq_true_eq, not_exists]
  intro e he
  exact h e he.1 he.2

/-- The metric loop, run from an accumulator whose keys avoid all upcoming
applicable metric names, appends one entry per applicable metric. -/
theorem analyzeFileMetrics_go (pr : ParseResult) :
    ∀ (ms : List Metric) (acc : List (String × MetricResult)),
    ((ms.filter (fun m => isLanguageSupported m pr.language)).map Metric.name).Nodup →
    (∀ e ∈ acc, ∀ m ∈ ms.filter (fun m => isLanguageSupported m pr.language),
        e.1 ≠ m.name) →
    ms.foldl
      (fun acc m =>
        if isLanguageSupported m pr.language then mapAssign acc m.name (m.analyze pr)
        else acc)
      acc
    = acc ++ (ms.filter (fun m => isLanguageSupported m pr.language)).map
        (fun m => (m.name, m.analyze pr)) := by
  intro ms
  induction ms with
  | nil => intro acc _ _; simp
  | cons m rest ih =>
      intro acc hnd hdisj
      by_cases hm : isLanguageSupported m pr.language
      · have hfilter :
            (m :: rest).filter (fun m => isLanguageSupported m pr.language)
              = m :: rest.filter (fun m => isLanguageSupported m pr.language) := by
          simp [List.filter_cons, hm]
        rw [hfilter] at hnd hdisj
        simp only [List.map_cons, List.nodup_cons] at hnd
        have hfresh : ∀ e ∈ acc, e.1 ≠ m.name := by
          intro e he
          exact hdisj e he m (by simp)
        have step :
            (if isLanguageSupported m pr.language then
                mapAssign acc m.name (m.analyze pr)
              else acc) = acc ++ [(m.name, m.analyze pr)] := by
          rw [if_pos hm, mapAssign_fresh acc m.name (m.analyze pr) hfresh]
        simp only [List.foldl_cons, step]
        rw [ih (acc ++ [(m.name, m.analyze pr)]) hnd.2]
        · rw [hfilter]
          simp
        · intro e he m' hm'
          rcases List.mem_append.mp he with h | h
          · exact hdisj e h m' (List.mem_cons_of_mem _ hm')
          · simp only [List.mem_singleton] at h
            subst h
            simp only
            intro hEq
            exact hnd.1 (hEq ▸ List.mem_map_of_mem Metric.name hm')
      · have hfilter :
            (m :: rest).filter (fun m => isLanguageSupported m pr.language)
              = rest.filter (fun m => isLanguageSupported m pr.language) := by
          simp [List.filter_cons, hm]
        rw [hfilter] at hnd hdisj
        simp only [List.foldl_cons, if_neg hm]
        rw [ih acc hnd hdisj, hfilter]

/-- Under distinct applicable metric names, the metric map is exactly one entry
per applicable metric, in order. -/
theorem analyzeFileMetrics_eq (ms : List Metric) (pr : ParseResult)
    (hnd : ((ms.filter (fun m => isLanguageSupported m pr.language)).map Metric.name).Nodup) :
    analyzeFileMetrics ms pr
      = (ms.filter (fun m => isLanguageSupported m pr.language)).map
          (fun m => (m.name, m.analyze pr)) := by
  unfold analyzeFileMetrics
  have := analyzeFileMetrics_go pr ms [] hnd (by intro e he; cases he)
  simpa using this

/-- The function `getOverallScore` is the clamped weighted average, uniformly: for an empty
map or zero total weight both sides are 0 (rational division by zero is 0). -/
theorem getOverallScore_eq_clamp (entries : List (String × MetricResult)) :
    getOverallScore entries
      = clamp01 ((entries.map (fun e => e.2.score * e.2.weight)).sum
          / (entries.map (fun e => e.2.weight)).sum) := by
  unfold getOverallScore clamp01
  rcases entries with _ | ⟨e, rest⟩
  · norm_num
  · simp only [List.isEmpty_cons, Bool.false_eq_true, if_false]
    by_cases hw : ((e :: rest).map (fun e => e.2.weight)).sum = 0
    · rw [if_pos hw, hw, div_zero]
      norm_num
    · rw [if_neg hw]

/-- C1 — For every analyzed file, the file score is the weighted average
`Σ(score·weight)/Σ(weight)` over exactly the metrics applicable to the file's
language (empty declared language set = applicable to all), clamped to [0,1],
and a file with zero applicable metric results scores exactly 0.  (With zero
applicable metrics, or a zero weight sum, both sides are 0: rational division
by zero is 0 and `clamp01 0 = 0`, matching the early returns in
`GetOverallScore`.) -/
theorem fileScore_is_clamped_weighted_average_over_applicable_metrics
    (ms : List Metric) (filePath : String) (pr : ParseResult)
    (hnd : ((applicableMetrics ms pr.language).map Metric.name).Nodup) :
    getOverallScore (codeAnalyzerAnalyzeFile ms filePath pr).metricResults
      = clamp01
          (((applicableMetrics ms pr.language).map
              (fun m => (m.analyze pr).score * (m.analyze pr).weight)).sum
            / ((applicableMetrics ms pr.language).map
              (fun m => (m.analyze pr).weight)).sum)
    ∧ (applicableMetrics ms pr.language = [] →
        getOverallScore (codeAnalyzerAnalyzeFile ms filePath pr).metricResults = 0) := by
  have hmr : (codeAnalyzerAnalyzeFile ms filePath pr).metricResults
      = analyzeFileMetrics ms pr := rfl
  have heq := analyzeFileMetrics_eq ms pr hnd
  constructor
  · rw [hmr, heq, getOverallScore_eq_clamp]
    unfold applicableMetrics
    simp [List.map_map, Function.comp_def]
  · intro hempty
    rw [hmr, heq]
    unfold applicableMetrics at hempty
    rw [hempty]
    rfl

/-- Witness for C1: a Go file seen by an all-languages metric (score 1/2,
weight 1/4), a Go-only metric (score 1, weight 3/4) and an inapplicable
Java-only metric; the file score is (1/2·1/4 + 1·3/4)/(1/4 + 3/4) = 7/8. -/
theorem fileScore_is_clamped_weighted_average_over_applicable_metrics_witness :
    getOverallScore
        (codeAnalyzerAnalyzeFile [demoMetricA, demoMetricB, demoMetricC] "x.go"
          demoParseResult).metricResults
      = clamp01
          (((applicableMetrics [demoMetricA, demoMetricB, demoMetricC]
                demoParseResult.language).map
              (fun m => (m.analyze demoParseResult).score * (m.analyze demoParseResult).weight)).sum
            / ((applicableMetrics [demoMetricA, demoMetricB, demoMetricC]
                demoParseResult.language).map
              (fun m => (m.analyze demoParseResult).weight)).sum) :=
  (fileScore_is_clamped_weighted_average_over_applicable_metrics
    [demoMetricA, demoMetricB, demoMetricC] "x.go" demoParseResult
    (by decide)).1

/-- C2 — The project score is the plain arithmetic mean of the per-file overall
scores over the successfully analyzed files, 0 for an empty list, and equal to
the single file's score for a one-file project. -/
theorem projectScore_is_mean_of_file_scores :
    calculateOverallScore [] = 0
    ∧ (∀ r : AnalysisResult,
        calculateOverallScore [r] = getOverallScore r.metricResults)
    ∧ (∀ results : List AnalysisResult, results ≠ [] →
        calculateOverallScore results
          = (results.map (fun r => getOverallScore r.metricResults)).sum
              / results.length) := by
  refine ⟨rfl, ?_, ?_⟩
  · intro r
    unfold calculateOverallScore
    simp
  · intro results hne
    unfold calculateOverallScore
    rw [if_neg (by simpa [List.isEmpty_iff] using hne)]

/-- Witness for C2 at a concrete one-file project. -/
theorem projectScore_is_mean_of_file_scores_witness :
    calculateOverallScore
        [codeAnalyzerAnalyzeFile [demoMetricA] "x.go" demoParseResult]
      = ((([codeAnalyzerAnalyzeFile [demoMetricA] "x.go" demoParseResult]).map
          (fun r => getOverallScore r.metricResults)).sum : ℚ)
          / ([codeAnalyzerAnalyzeFile [demoMetricA] "x.go" demoParseResult] : List AnalysisResult).length :=
  projectScore_is_mean_of_file_scores.2.2
    [codeAnalyzerAnalyzeFile [demoMetricA] "x.go" demoParseResult]
    (by simp)

/-- C9 — The four metrics the factory creates for error handling, naming
convention, code duplication and structure analysis are `SimpleMetric` stubs:
on every parse result, whatever its content, language or functions, they
return score 0.5 with an empty issue list (with the fixed factory weights
0.15, 0.1, 0.15, 0.2).  The full implementations in `error_handling.go`,
`naming_convention.go`, `code_duplication.go` and `structure_analysis.go` are
never created by the factory. -/
theorem factory_simple_metrics_are_constant_stubs
    (tr : String → String) (pr : ParseResult) :
    (((createErrorHandling tr).analyze pr).score = 1/2
      ∧ ((createErrorHandling tr).analyze pr).issues = []
      ∧ ((createErrorHandling tr).analyze pr).weight = 15/100)
    ∧ (((createNamingConvention tr).analyze pr).score = 1/2
      ∧ ((createNamingConvention tr).analyze pr).issues = []
      ∧ ((createNamingConvention tr).analyze pr).weight = 1/10)
    ∧ (((createCodeDuplication tr).analyze pr).score = 1/2
      ∧ ((createCodeDuplication tr).analyze pr).issues = []
      ∧ ((createCodeDuplication tr).analyze pr).weight = 15/100)
    ∧ (((createStructureAnalysis tr).analyze pr).score = 1/2
      ∧ ((createStructureAnalysis tr).analyze pr).issues = []
      ∧ ((createStructureAnalysis tr).analyze pr).weight = 2/10) :=
  ⟨⟨rfl, rfl, rfl⟩, ⟨rfl, rfl, rfl⟩, ⟨rfl, rfl, rfl⟩, ⟨rfl, rfl, rfl⟩⟩

/-- C5 counterexample — the collected per-file list is the channel-drain
(= goroutine completion) order, and no sort restores a canonical order:
for the same two analyzed files, the two possible completion orders yield
different `FilesAnalyzed` lists, so re-running the analysis is not guaranteed
to produce bit-identical project output including entry order. -/
theorem directory_entry_order_follows_completion_order :
    List.Perm [demoResultA, demoResultB] [demoResultB, demoResultA]
    ∧ filesAnalyzedOf [demoResultA, demoResultB]
        ≠ filesAnalyzedOf [demoResultB, demoResultA] := by
  constructor
  · exact List.Perm.swap demoResultB demoResultA []
  · decide

/-- C5 amended — what is completion-order invariant: for any arrival
permutation of the same per-file results, the project score (in exact
arithmetic) is unchanged and the per-file entries are a permutation of each
other; only their order can differ between runs. -/
theorem directory_scores_invariant_under_completion_order
    (results arrived : List AnalysisResult) (h : List.Perm arrived results) :
    calculateOverallScore arrived = calculateOverallScore results
    ∧ List.Perm (filesAnalyzedOf arrived) (filesAnalyzedOf results) := by
  constructor
  · unfold calculateOverallScore
    have hsum := (h.map (fun r => getOverallScore r.metricResults)).sum_eq
    have hlen := h.length_eq
    rcases hres : results with _ | ⟨r, rest⟩
    · rw [hres] at h
      rw [List.perm_nil.mp h]
    · have hne : ¬arrived.isEmpty = true := by
        intro hemp
        rw [List.isEmpty_iff.mp hemp] at h
        exact absurd (List.perm_nil.mp h.symm) (by simp [hres])
      rw [if_neg hne, if_neg (by simp)]
      rw [hres] at hsum hlen
      rw [hsum, hlen]
  · exact h.map _

/-- Witness for the amended C5 at the two demo files swapped. -/
theorem directory_scores_invariant_under_completion_order_witness :
    calculateOverallScore [demoResultB, demoResultA]
        = calculateOverallScore [demoResultA, demoResultB]
    ∧ List.Perm (filesAnalyzedOf [demoResultB, demoResultA])
        (filesAnalyzedOf [demoResultA, demoResultB]) :=
  directory_scores_invariant_under_completion_order
    [demoResultA, demoResultB] [demoResultB, demoResultA]
    (List.Perm.swap demoResultA demoResultB [])

/-- The function `splitLines` never returns an empty list of lines. -/
theorem splitLines_ne_nil (cs : List Char) : splitLines cs ≠ [] := by
  cases cs with
  | nil => simp [splitLines]
  | cons ch rest =>
      unfold splitLines
      by_cases h : ch = '\n'
      · simp [h]
      · simp only [if_neg h]
        cases splitLines rest <;> simp

/-- The number of lines is the newline count plus one. -/
theorem splitLines_length (cs : List Char) :
    (splitLines cs).length = cs.count '\n' + 1 := by
  induction cs with
  | nil => simp [splitLines]
  | cons ch rest ih =>
      unfold splitLines
      by_cases h : ch = '\n'
      · simp [h, List.count_cons, ih]
      · simp only [if_neg h]
        rcases hs : splitLines rest with _ | ⟨l, ls⟩
        · exact absurd hs (splitLines_ne_nil rest)
        · rw [hs] at ih
          simp only [List.length_cons] at ih ⊢
          rw [List.count_cons]
          simp [h, ih]

/-- The comment scan counts at most one line per input line. -/
theorem cStyleCommentScan_le (lines : List (List Char)) :
    ∀ inBlock, cStyleCommentScan lines inBlock ≤ lines.length := by
  induction lines with
  | nil => intro b; simp [cStyleCommentScan]
  | cons line rest ih =>
      intro b
      unfold cStyleCommentScan
      simp only [List.length_cons]
      split
      · have := ih (!containsSeq ['*', '/'] (trimSpace line)); omega
      · split
        · have := ih false; omega
        · split
          · have := ih (!containsSeq ['*', '/'] (trimSpace line)); omega
          · have := ih false; omega

/-- The end scan never returns less than both its fallback and its running
line index. -/
theorem cFindEndAux_ge (total : Nat) (ls : List (List Char)) :
    ∀ i cnt, min total i ≤ cFindEndAux total ls i cnt := by
  induction ls with
  | nil => intro i cnt; simp [cFindEndAux]
  | cons line rest ih =>
      intro i cnt
      unfold cFindEndAux
      rcases scanBrackets line cnt with _ | cnt'
      · simp only
        omega
      · simp only
        have := ih (i + 1) cnt'
        omega

/-- C-parser functions start at their header line and end no earlier. -/
theorem cDetectFunctions_line_order (lines : List (List Char)) :
    ∀ f ∈ cDetectFunctions lines, 1 ≤ f.startLine ∧ f.startLine ≤ f.endLine := by
  intro f hf
  unfold cDetectFunctions at hf
  rcases List.mem_filterMap.mp hf with ⟨i, hi, hsome⟩
  simp only at hsome
  split at hsome
  · split at hsome
    · exact absurd hsome (by simp)
    · have hlt : i < lines.length := by simpa [List.mem_range] using hi
      have hend : i + 1 ≤ cFindFunctionEnd lines i := by
        unfold cFindFunctionEnd
        have := cFindEndAux_ge lines.length (lines.drop (i + 1)) (i + 1) 1
        omega
      injection hsome with h
      subst h
      constructor
      · simp
      · simp only
        exact_mod_cast hend
  · exact absurd hsome (by simp)

/-- The Python comment scan counts at most one line per input line. -/
theorem pyCommentScan_le (lines : List (List Char)) :
    ∀ inDoc, pyCommentScan lines inDoc ≤ lines.length := by
  induction lines with
  | nil => intro b; simp [pyCommentScan]
  | cons line rest ih =>
      intro b
      unfold pyCommentScan
      simp only [List.length_cons]
      split
      · have := ih (!(containsSeq dq3 (trimSpace line) || containsSeq sq3 (trimSpace line)))
        omega
      · split
        · have := ih false; omega
        · split
          · have := ih
              (!(decide (1 < countOccur dq3 (trimSpace line))
                  || decide (1 < countOccur sq3 (trimSpace line))))
            omega
          · have := ih false; omega

/-- The generic parser's comment count never exceeds its line count. -/
theorem gCountCommentLines_le (content : List Char) (language : LanguageType) :
    gCountCommentLines content language ≤ (splitLines content).length := by
  unfold gCountCommentLines
  cases language
  all_goals
    first
    | exact cStyleCommentScan_le (splitLines content) false
    | exact pyCommentScan_le (splitLines content) false
    | exact List.countP_le_length _

/-- A line number computed inside the content never exceeds the number of
lines of the content. -/
theorem getLineNumber_le (content : List Char) (pos : Nat) :
    getLineNumber content pos ≤ (splitLines content).length := by
  unfold getLineNumber
  rw [splitLines_length]
  have : (content.take pos).count '\n' ≤ content.count '\n' :=
    List.Sublist.count_le (List.take_sublist pos content) '\n'
  omega

set_option maxHeartbeats 1600000 in
/-- Any end line the character loop returns is at least the start line plus
the newlines already consumed. -/
theorem findBlockEndAux_ge (startLine : Nat) :
    ∀ (n : Nat) (cs : List Char), cs.length ≤ n →
    ∀ prev st cnt nl v,
      findBlockEndAux startLine cs prev st cnt nl = some v → startLine + nl ≤ v := by
  intro n
  induction n with
  | zero =>
      intro cs hlen prev st cnt nl v h
      have hnil : cs = [] := List.length_eq_zero.mp (Nat.le_zero.mp hlen)
      subst hnil
      exact absurd h (by simp [findBlockEndAux])
  | succ n ih =>
      intro cs hlen prev st cnt nl v h
      rcases cs with _ | ⟨c, rest⟩
      · exact absurd h (by simp [findBlockEndAux])
      · unfold findBlockEndAux at h
        have hnl : nl ≤ (if c = '\n' then nl + 1 else nl) := by split <;> omega
        have hlen' : rest.length ≤ n := by
          simp only [List.length_cons] at hlen; omega
        dsimp only at h
        split at h
        · exact le_trans (by omega) (ih rest hlen' _ _ _ _ v h)
        · split at h
          · exact le_trans (by omega) (ih rest hlen' _ _ _ _ v h)
          · split at h
            · exact le_trans (by omega) (ih rest hlen' _ _ _ _ v h)
            · split at h
              · rcases rest with _ | ⟨d, rest2⟩
                · exact absurd h (by simp)
                · have hlen2 : rest2.length ≤ n := by
                    simp only [List.length_cons] at hlen; omega
                  exact le_trans (by omega) (ih rest2 hlen2 _ _ _ _ v h)
              · split at h
                · exact le_trans (by omega) (ih rest hlen' _ _ _ _ v h)
                · split at h
                  · rcases rest with _ | ⟨d, rest2⟩
                    · exact absurd h (by simp)
                    · have hlen2 : rest2.length ≤ n := by
                        simp only [List.length_cons] at hlen; omega
                      exact le_trans (by omega) (ih rest2 hlen2 _ _ _ _ v h)
                  · split at h
                    · exact le_trans (by omega) (ih rest hlen' _ _ _ _ v h)
                    · split at h
                      · split at h
                        · injection h with h
                          omega
                        · exact le_trans (by omega) (ih rest hlen' _ _ _ _ v h)
                      · exact le_trans (by omega) (ih rest hlen' _ _ _ _ v h)

/-- Every function span the generic parser computes ends no earlier than it
starts, whatever match position the regex engine reports. -/
theorem gFunctionLines_order (content : List Char) (startPos : Nat) :
    (gFunctionLines content startPos).1 ≤ (gFunctionLines content startPos).2 := by
  unfold gFunctionLines genericFindBlockEnd
  dsimp only
  rcases hscan : findBlockEndAux (getLineNumber content startPos)
      (content.drop startPos)
      (if startPos = 0 then none else some (content.getD (startPos - 1) ' '))
      ⟨false, false, false, false⟩ 0 0 with _ | e
  · exact getLineNumber_le content startPos
  · show getLineNumber content startPos ≤ e
    have := findBlockEndAux_ge (getLineNumber content startPos)
      (content.drop startPos).length (content.drop startPos) le_rfl _ _ _ _ e hscan
    omega

/-- C3 counterexample — the Go parser propagates a parse failure to its caller
instead of returning a best-effort partial result: on content the standard
library cannot parse (e.g. `func {`), `GoParser.Parse` wraps the error and
returns it, so not every language implementation degrades gracefully. -/
theorem go_parser_propagates_failure_counterexample :
    goParserParse (Except.error "expected declaration, found lbrace") "func \x7b".data
      = Except.error "解析Go文件失败: expected declaration, found lbrace" := rfl

/-- C3 amended — failure semantics as implemented: the heuristic C/C++ parser
always returns `(result, nil)`; the exact Go parser propagates any
standard-library parse failure as an error (and succeeds otherwise); the
analyzer's per-file entry point passes that failure on to its caller, so a
single-file analysis fails — but the directory walk converts it into a
logged skip, keeping sibling files, so only a whole-directory run survives a
malformed file. -/
theorem parser_failure_semantics_amended :
    (∀ filePath content,
        cParserParse filePath content = .ok (cParseResultOf filePath content))
    ∧ (∀ e content,
        goParserParse (.error e) content = .error ("解析Go文件失败: " ++ e))
    ∧ (∀ file content, ∃ pr, goParserParse (.ok file) content = .ok pr)
    ∧ (∀ ms filePath e, codeAnalyzerAnalyzeFileE ms filePath (.error e) = .error e)
    ∧ (∀ ms fp1 fp2 e pr,
        analyzeDirectoryResults ms [(fp1, .error e), (fp2, .ok pr)]
          = [codeAnalyzerAnalyzeFile ms fp2 pr]) :=
  ⟨fun _ _ => rfl, fun _ _ => rfl, fun _ _ => ⟨_, rfl⟩, fun _ _ _ => rfl,
    fun _ _ _ _ _ => rfl⟩

/-- C7 counterexample — the Go parser sums, per comment, the comment's own
line span; two comments sharing one line are counted twice.  On the one-line
file `package p /* a */ // b` it reports `comment_lines = 2 > 1 =
total_lines`, violating `comment_lines ≤ total_lines`. -/
theorem go_comment_lines_exceed_total_lines_counterexample :
    goParserParse (.ok demoGoOneLineFile) "package p /* a */ // b".data
      = .ok
          { functions := [], commentLines := 2, totalLines := 1, language := .go
            astRoot := some demoGoOneLineFile }
    ∧ ¬((2 : Int) ≤ 1) :=
  ⟨rfl, by decide⟩

/-- C7 amended — the line invariants hold for the self-contained heuristic
parsers: every C/C++-parser result satisfies `0 ≤ comment_lines ≤
total_lines` and every one of its functions `1 ≤ start_line ≤ end_line`; the
generic parser's comment count is bounded by its line count and every
function span it computes (for any match position its regex engine reports)
ends no earlier than it starts.  The Go parser, by contrast, violates
`comment_lines ≤ total_lines` when several comments share a line (see the
counterexample), because it counts each comment's line span separately. -/
theorem parse_result_line_invariants_amended :
    (∀ filePath content,
        0 ≤ (cParseResultOf filePath content).commentLines
        ∧ (cParseResultOf filePath content).commentLines
            ≤ (cParseResultOf filePath content).totalLines
        ∧ ∀ f ∈ (cParseResultOf filePath content).functions,
            1 ≤ f.startLine ∧ f.startLine ≤ f.endLine)
    ∧ (∀ content language,
        gCountCommentLines content language ≤ (splitLines content).length)
    ∧ (∀ content startPos,
        (gFunctionLines content startPos).1 ≤ (gFunctionLines content startPos).2) := by
  refine ⟨?_, gCountCommentLines_le, gFunctionLines_order⟩
  intro filePath content
  refine ⟨?_, ?_, ?_⟩
  · show (0 : Int) ≤ (cCountCommentLines content : Int)
    exact_mod_cast Nat.zero_le _
  · show (cCountCommentLines content : Int) ≤ ((splitLines content).length : Int)
    exact_mod_cast cStyleCommentScan_le (splitLines content) false
  · intro f hf
    exact cDetectFunctions_line_order (splitLines content) f hf

/-- Witness for the amended C7 at a concrete C file: the parser finds
`main` spanning lines 1–2, and comment and line counts are in range. -/
theorem parse_result_line_invariants_amended_witness :
    (0 ≤ (cParseResultOf "a.c" demoCContent).commentLines
      ∧ (cParseResultOf "a.c" demoCContent).commentLines
          ≤ (cParseResultOf "a.c" demoCContent).totalLines)
    ∧ demoCFunction ∈ (cParseResultOf "a.c" demoCContent).functions
    ∧ 1 ≤ demoCFunction.startLine ∧ demoCFunction.startLine ≤ demoCFunction.endLine := by
  have h := parse_result_line_invariants_amended.1 "a.c" demoCContent
  have hmem : demoCFunction ∈ (cParseResultOf "a.c" demoCContent).functions := by decide
  exact ⟨⟨h.1, h.2.1⟩, hmem, h.2.2 demoCFunction hmem⟩

/-- C10 — Every file classified as C# (which is exactly what the `.cs` and
`.razor` extensions map to) is dispatched to the generic fallback parser:
`CreateParser` has no `CSharp` case, so the dedicated C#/Razor parser — and
with it the Razor lifecycle-method and `@code`-block extraction logic — is
never selected by the pipeline. -/
theorem csharp_files_dispatch_to_generic_fallback (path : String)
    (h : detectLanguage path = .csharp) :
    createParserForFile path = .genericParser := by
  unfold createParserForFile
  rw [h]
  rfl

/-- Witness for C10: a concrete Razor component file is classified as C# and
gets the generic parser. -/
theorem csharp_files_dispatch_to_generic_fallback_witness :
    detectLanguage "Counter.razor" = .csharp
    ∧ createParserForFile "Counter.razor" = .genericParser :=
  ⟨by decide, csharp_files_dispatch_to_generic_fallback "Counter.razor" (by decide)⟩

/-! ### Comment-score band bounds -/

/-- Ratios of at least 0.25 score exactly 0. -/
theorem commentScore_top (r : ℚ) (h : 1/4 ≤ r) : commentCalculateScore r = 0 := by
  unfold commentCalculateScore
  rw [if_pos h]

/-- Ratios of at least 0.2 score at most 0.1. -/
theorem commentScore_b20 (r : ℚ) (h : 1/5 ≤ r) : commentCalculateScore r ≤ 1/10 := by
  unfold commentCalculateScore
  split_ifs <;> linarith

/-- Ratios of at least 0.15 score at most 0.25. -/
theorem commentScore_b15 (r : ℚ) (h : 3/20 ≤ r) : commentCalculateScore r ≤ 1/4 := by
  unfold commentCalculateScore
  split_ifs <;> linarith

/-- Ratios of at least 0.1 score at most 0.45. -/
theorem commentScore_b10 (r : ℚ) (h : 1/10 ≤ r) : commentCalculateScore r ≤ 9/20 := by
  unfold commentCalculateScore
  split_ifs <;> linarith

/-- Ratios of at least 0.07 score at most 0.65. -/
theorem commentScore_b07 (r : ℚ) (h : 7/100 ≤ r) : commentCalculateScore r ≤ 13/20 := by
  unfold commentCalculateScore
  split_ifs <;> linarith

/-- Ratios of at least 0.05 score at most 0.8. -/
theorem commentScore_b05 (r : ℚ) (h : 1/20 ≤ r) : commentCalculateScore r ≤ 4/5 := by
  unfold commentCalculateScore
  split_ifs <;> linarith

/-- Ratios of at least 0.02 score at most 0.9. -/
theorem commentScore_b02 (r : ℚ) (h : 1/50 ≤ r) : commentCalculateScore r ≤ 9/10 := by
  unfold commentCalculateScore
  split_ifs <;> linarith

/-- Every comment score is at most 1. -/
theorem commentScore_le_one (r : ℚ) : commentCalculateScore r ≤ 1 := by
  unfold commentCalculateScore
  split_ifs <;> linarith

/-- C8 — The comment ratio metric scores the ratio comment_lines/total_lines
(0 for an empty file) through an 8-band step curve: the score is monotone
non-increasing in the ratio, ratios ≥ 0.25 get the best score 0, ratios
< 0.02 the worst score 1, and the 8 anchor ratios 0, 0.02, 0.05, 0.07, 0.1,
0.15, 0.2, 0.25 realize 8 pairwise distinct score values. -/
theorem comment_ratio_score_monotone_banded (tr : String → String) :
    (∀ pr, (commentRatioAnalyze tr pr).score
        = commentCalculateScore
            (if 0 < pr.totalLines then (pr.commentLines : ℚ) / (pr.totalLines : ℚ) else 0))
    ∧ (∀ r1 r2 : ℚ, r1 ≤ r2 → commentCalculateScore r2 ≤ commentCalculateScore r1)
    ∧ (∀ r : ℚ, 1/4 ≤ r → commentCalculateScore r = 0)
    ∧ (∀ r : ℚ, r < 1/50 → commentCalculateScore r = 1)
    ∧ [commentCalculateScore 0, commentCalculateScore (1/50),
        commentCalculateScore (1/20), commentCalculateScore (7/100),
        commentCalculateScore (1/10), commentCalculateScore (3/20),
        commentCalculateScore (1/5), commentCalculateScore (1/4)]
        = [1, 9/10, 4/5, 13/20, 9/20, 1/4, 1/10, 0]
    ∧ ([1, 9/10, 4/5, 13/20, 9/20, 1/4, 1/10, 0] : List ℚ).Nodup := by
  refine ⟨fun pr => rfl, ?_, commentScore_top, ?_, ?_, ?_⟩
  · intro r1 r2 h
    by_cases h25 : (1:ℚ)/4 ≤ r1
    · rw [commentScore_top r1 h25, commentScore_top r2 (le_trans h25 h)]
    · by_cases h20 : (1:ℚ)/5 ≤ r1
      · have e1 : commentCalculateScore r1 = 1/10 := by
          unfold commentCalculateScore
          rw [if_neg h25, if_pos h20]
        rw [e1]
        exact commentScore_b20 r2 (le_trans h20 h)
      · by_cases h15 : (3:ℚ)/20 ≤ r1
        · have e1 : commentCalculateScore r1 = 1/4 := by
            unfold commentCalculateScore
            rw [if_neg h25, if_neg h20, if_pos h15]
          rw [e1]
          exact commentScore_b15 r2 (le_trans h15 h)
        · by_cases h10 : (1:ℚ)/10 ≤ r1
          · have e1 : commentCalculateScore r1 = 9/20 := by
              unfold commentCalculateScore
              rw [if_neg h25, if_neg h20, if_neg h15, if_pos h10]
            rw [e1]
            exact commentScore_b10 r2 (le_trans h10 h)
          · by_cases h07 : (7:ℚ)/100 ≤ r1
            · have e1 : commentCalculateScore r1 = 13/20 := by
                unfold commentCalculateScore
                rw [if_neg h25, if_neg h20, if_neg h15, if_neg h10, if_pos h07]
              rw [e1]
              exact commentScore_b07 r2 (le_trans h07 h)
            · by_cases h05 : (1:ℚ)/20 ≤ r1
              · have e1 : commentCalculateScore r1 = 4/5 := by
                  unfold commentCalculateScore
                  rw [if_neg h25, if_neg h20, if_neg h15, if_neg h10, if_neg h07,
                    if_pos h05]
                rw [e1]
                exact commentScore_b05 r2 (le_trans h05 h)
              · by_cases h02 : (1:ℚ)/50 ≤ r1
                · have e1 : commentCalculateScore r1 = 9/10 := by
                    unfold commentCalculateScore
                    rw [if_neg h25, if_neg h20, if_neg h15, if_neg h10, if_neg h07,
                      if_neg h05, if_pos h02]
                  rw [e1]
                  exact commentScore_b02 r2 (le_trans h02 h)
                · have e1 : commentCalculateScore r1 = 1 := by
                    unfold commentCalculateScore
                    rw [if_neg h25, if_neg h20, if_neg h15, if_neg h10, if_neg h07,
                      if_neg h05, if_neg h02]
                  rw [e1]
                  exact commentScore_le_one r2
  · intro r hr
    unfold commentCalculateScore
    rw [if_neg (by linarith), if_neg (by linarith), if_neg (by linarith),
      if_neg (by linarith), if_neg (by linarith), if_neg (by linarith),
      if_neg (by linarith)]
  · norm_num [commentCalculateScore]
  · norm_num [List.nodup_cons]

/-- Witness for C8: monotone at a concrete pair, worst band at a concrete
ratio. -/
theorem comment_ratio_score_monotone_banded_witness :
    commentCalculateScore (1/2) ≤ commentCalculateScore (1/100)
    ∧ commentCalculateScore (1/100) = 1 :=
  ⟨(comment_ratio_score_monotone_banded idTr).2.1 (1/100) (1/2) (by norm_num),
    (comment_ratio_score_monotone_banded idTr).2.2.2.1 (1/100) (by norm_num)⟩

/-- C4 counterexample — on a file with exactly three structurally identical
functions, the code-duplication metric the pipeline actually runs (the
factory's `SimpleMetric` stub) emits no issue at all and scores the constant
0.5; it computes no duplication ratio, so the claimed ratio ≥ 2/3 and
duplicate-group issue never materialize. -/
theorem code_duplication_pipeline_ignores_duplicates_counterexample :
    ((createCodeDuplication idTr).analyze demoDupParseResult).issues = []
    ∧ ((createCodeDuplication idTr).analyze demoDupParseResult).score = 1/2 :=
  ⟨rfl, rfl⟩

/-- C4 amended — the pipeline's code-duplication metric is a constant stub
(score 0.5, no issues, for every input); the standalone
`CodeDuplicationMetric.Analyze` in `code_duplication.go` — never created by
the factory — does detect the three structurally identical functions of the
demo file: 2 duplicates out of 3 functions (ratio 2/3), one duplicate-group
issue naming all three, and the ratio saturates the score at 1. -/
theorem code_duplication_stub_vs_standalone_amended :
    (∀ (tr : String → String) (pr : ParseResult),
      ((createCodeDuplication tr).analyze pr).score = 1/2
        ∧ ((createCodeDuplication tr).analyze pr).issues = [])
    ∧ codeDuplicationAnalyze demoDupFile
        = (dupCalculateScore (2/3), ["可能存在重复实现: alpha, beta, gamma"])
    ∧ dupCalculateScore (2/3) = 1 := by
  refine ⟨fun tr pr => ⟨rfl, rfl⟩, rfl, by norm_num [dupCalculateScore]⟩

/-- C6 — The cyclomatic complexity score is the fixed piecewise-linear curve
of the file's average function complexity: ≤5 ↦ 0; (5,10] linear 0–0.5;
(10,20] linear 0.5–0.8; >20 linear 0.8–1 clamped at 1 — on both the Go AST
path and the function-record path — and a Go file with 5 functions of average
complexity 3 scores exactly 0. -/
theorem cyclomatic_score_piecewise (tr : String → String) :
    (∀ a : ℚ, a ≤ 5 → cycloCalculateScore a = 0)
    ∧ (∀ a : ℚ, 5 < a → a ≤ 10 → cycloCalculateScore a = (a - 5) / 5 * (1/2))
    ∧ (∀ a : ℚ, 10 < a → a ≤ 20 →
        cycloCalculateScore a = 1/2 + (a - 10) / 10 * (3/10))
    ∧ (∀ a : ℚ, 20 < a →
        cycloCalculateScore a = min (4/5 + (a - 20) / 10 * (1/5)) 1)
    ∧ (∀ pr f, extractGoAST pr = some f → goFuncDecls f ≠ [] →
        (cycloAnalyze tr pr).score
          = cycloCalculateScore
              ((((goFuncDecls f).map goCalculateComplexity).sum : ℚ)
                / ((goFuncDecls f).length : ℚ)))
    ∧ (∀ pr, extractGoAST pr = none → pr.functions ≠ [] →
        (cycloAnalyze tr pr).score
          = cycloCalculateScore
              (((pr.functions.map FunctionInfo.complexity).sum : ℚ)
                / (pr.functions.length : ℚ)))
    ∧ (cycloAnalyze tr demoGoPr5).score = 0 := by
  have h1 : ∀ a : ℚ, a ≤ 5 → cycloCalculateScore a = 0 := by
    intro a ha
    unfold cycloCalculateScore
    rw [if_pos ha]
  have h5 : ∀ pr f, extractGoAST pr = some f → goFuncDecls f ≠ [] →
      (cycloAnalyze tr pr).score
        = cycloCalculateScore
            ((((goFuncDecls f).map goCalculateComplexity).sum : ℚ)
              / ((goFuncDecls f).length : ℚ)) := by
    intro pr f hast hne
    unfold cycloAnalyze cycloAnalyzeComplexity
    rw [hast]
    dsimp only
    rw [if_neg (by simpa [List.length_eq_zero] using hne)]
  refine ⟨h1, ?_, ?_, ?_, h5, ?_, ?_⟩
  · intro a ha5 ha10
    unfold cycloCalculateScore
    rw [if_neg (by linarith), if_pos ha10]
  · intro a ha10 ha20
    unfold cycloCalculateScore
    rw [if_neg (by linarith), if_neg (by linarith), if_pos ha20]
  · intro a ha20
    unfold cycloCalculateScore
    rw [if_neg (by linarith), if_neg (by linarith), if_neg (by linarith)]
    dsimp only
    by_cases hs : (4:ℚ)/5 + (a - 20) / 10 * (1/5) > 1
    · rw [if_pos hs, min_comm, min_eq_left (le_of_lt hs)]
    · rw [if_neg hs, min_eq_left (not_lt.mp hs)]
  · intro pr hast hne
    unfold cycloAnalyze cycloAnalyzeComplexity
    rw [hast]
    dsimp only
    rw [if_neg (by simpa [List.isEmpty_iff] using hne)]
  · rw [h5 demoGoPr5 demoGoFile5 rfl (by decide)]
    have hsum : ((goFuncDecls demoGoFile5).map goCalculateComplexity).sum = 15 := by
      decide
    have hlen : (goFuncDecls demoGoFile5).length = 5 := by decide
    rw [hsum, hlen]
    have h3 : (((15 : ℕ) : ℚ) / ((5 : ℕ) : ℚ)) = 3 := by norm_num
    rw [h3]
    exact h1 3 (by norm_num)

/-- Witness for C6 at concrete averages on every linear piece and at the
five-function demo file. -/
theorem cyclomatic_score_piecewise_witness :
    cycloCalculateScore 3 = 0
    ∧ cycloCalculateScore (15/2) = ((15:ℚ)/2 - 5) / 5 * (1/2)
    ∧ cycloCalculateScore 15 = 1/2 + ((15:ℚ) - 10) / 10 * (3/10)
    ∧ cycloCalculateScore 25 = min (4/5 + ((25:ℚ) - 20) / 10 * (1/5)) 1
    ∧ (cycloAnalyze idTr demoGoPr5).score = 0 :=
  ⟨(cyclomatic_score_piecewise idTr).1 3 (by norm_num),
    (cyclomatic_score_piecewise idTr).2.1 (15/2) (by norm_num) (by norm_num),
    (cyclomatic_score_piecewise idTr).2.2.1 15 (by norm_num) (by norm_num),
    (cyclomatic_score_piecewise idTr).2.2.2.1 25 (by norm_num),
    (cyclomatic_score_piecewise idTr).2.2.2.2.2.2⟩
